import Mathlib

/-!
Shallow embedding of the raster-graphics engine of the in-browser
illustration editor: the snapshot-based history log (HistoryManager in
history.js), the layer stack (LayerManager), the pixel filter pipeline
(ImageEditor) and the pointer-driven drawing state machine
(CanvasManager).

Conventions of the embedding:
- JavaScript numbers are embedded as rationals; every arithmetic
  operation on the embedded code paths (addition, multiplication by the
  literal filter coefficients, division by a window count) is exact on
  rationals, so no floating-point rounding is modelled.
- A Uint8ClampedArray slot holds a natural number in [0, 255]; storing a
  JavaScript number into such a slot rounds to the nearest integer with
  ties to even and clamps into [0, 255], which u8write reproduces.
- DOM / UI side effects (list rendering, buttons, cursors, thumbnails)
  carry no document state and are not modelled.
-/

/-- Rounding of a rational to the nearest integer with ties to even: the
rounding performed when a JavaScript number is stored into a
Uint8ClampedArray slot. -/
def roundTiesEven (x : ℚ) : ℤ :=
  let f : ℤ := ⌊x⌋
  let r : ℚ := x - f
  if r < 1/2 then f
  else if 1/2 < r then f + 1
  else if 2 ∣ f then f else f + 1

/-- Storing a JavaScript number into a Uint8ClampedArray slot: round to
the nearest integer (ties to even) and clamp into [0, 255]. -/
def u8write (x : ℚ) : ℕ := min (roundTiesEven x).toNat 255

/-- ImageData as handed out by getImageData: width, height, and the dense
RGBA byte buffer (row-major, top-left origin, 4 bytes per pixel). -/
structure ImageData where
  width : ℕ
  height : ℕ
  data : List ℕ
deriving DecidableEq

/-- ImageEditor.convertToGrayscale: walk the RGBA buffer four bytes at a
time; each pixel's R, G and B are replaced by the luma
0.299 R + 0.587 G + 0.114 B (one shared value, stored three times through
the clamped-byte write), alpha untouched.  A trailing fragment shorter
than one pixel is left as is (the source loop steps in strides of 4). -/
def convertToGrayscale : List ℕ → List ℕ
  | r :: g :: b :: a :: rest =>
      let gray := u8write ((r : ℚ) * (299/1000) + (g : ℚ) * (587/1000) + (b : ℚ) * (114/1000))
      gray :: gray :: gray :: a :: convertToGrayscale rest
  | l => l

/-- ImageEditor.invertColors: each of R, G, B becomes 255 - c, alpha
untouched.  On byte inputs the JavaScript subtraction followed by the
clamped store agrees with truncated natural subtraction. -/
def invertColors : List ℕ → List ℕ
  | r :: g :: b :: a :: rest =>
      (255 - r) :: (255 - g) :: (255 - b) :: a :: invertColors rest
  | l => l

/-- Byte read data[(ny * width + nx) * 4 + c] used by the blur loop; the
loop only reads it at in-bounds coordinates, where both components are
nonnegative. -/
def chanAt (img : ImageData) (nx ny : ℤ) (c : ℕ) : ℕ :=
  img.data.getD ((ny.toNat * img.width + nx.toNat) * 4 + c) 0

/-- Bounds test of the blur loop: 0 <= nx < width and 0 <= ny < height. -/
def inBounds (img : ImageData) (nx ny : ℤ) : Prop :=
  0 ≤ nx ∧ nx < (img.width : ℤ) ∧ 0 ≤ ny ∧ ny < (img.height : ℤ)

instance (img : ImageData) (nx ny : ℤ) : Decidable (inBounds img nx ny) := by
  unfold inBounds; infer_instance

/-- Channel accumulator of ImageEditor.applyBlur at pixel (x, y): the sum
of channel c over the square window dy, dx in [-radius, radius], guarded
by the bounds test (the source accumulates r, g, b, a in this double
loop, skipping out-of-bounds neighbours). -/
def blurSum (img : ImageData) (radius : ℕ) (x y c : ℕ) : ℕ :=
  ∑ dy ∈ Finset.Icc (-(radius : ℤ)) (radius : ℤ),
    ∑ dx ∈ Finset.Icc (-(radius : ℤ)) (radius : ℤ),
      if inBounds img ((x : ℤ) + dx) ((y : ℤ) + dy) then
        chanAt img ((x : ℤ) + dx) ((y : ℤ) + dy) c
      else 0

/-- Count accumulator of ImageEditor.applyBlur at pixel (x, y): the
number of in-bounds samples of the square window. -/
def blurCount (img : ImageData) (radius : ℕ) (x y : ℕ) : ℕ :=
  ∑ dy ∈ Finset.Icc (-(radius : ℤ)) (radius : ℤ),
    ∑ dx ∈ Finset.Icc (-(radius : ℤ)) (radius : ℤ),
      if inBounds img ((x : ℤ) + dx) ((y : ℤ) + dy) then 1 else 0

/-- Output byte of ImageEditor.applyBlur for channel c of pixel (x, y):
the accumulated channel sum divided by the accumulated count, stored
through the clamped-byte write (output[idx] = r / count). -/
def blurPixelChan (img : ImageData) (radius x y c : ℕ) : ℕ :=
  u8write ((blurSum img radius x y c : ℚ) / (blurCount img radius x y : ℚ))

/-- ImageEditor.applyBlur: every byte of the width*height*4 buffer is
recomputed from the snapshot img of the input (the source writes into a
fresh output array while reading the untouched data array, then copies
output back).  Index i of the flat buffer belongs to channel i % 4 of
pixel i / 4, which sits at column (i / 4) % width and row
(i / 4) / width.  The translation assumes the PixelSurface invariant that
the buffer length is width * height * 4, under which the source's pixel
double loop overwrites exactly the indices of List.range. -/
def applyBlur (img : ImageData) (radius : ℕ) : ImageData :=
  { img with
    data := (List.range (img.width * img.height * 4)).map fun i =>
      blurPixelChan img radius ((i / 4) % img.width) ((i / 4) / img.width) (i % 4) }

/-- Spec-side description of the blur window at pixel (x, y): the square
[x - radius, x + radius] x [y - radius, y + radius] intersected with the
surface bounds; its cardinality is the divisor of the average. -/
def blurWindow (img : ImageData) (radius x y : ℕ) : Finset (ℤ × ℤ) :=
  (Finset.Icc ((x : ℤ) - radius) ((x : ℤ) + radius) ×ˢ
    Finset.Icc ((y : ℤ) - radius) ((y : ℤ) + radius)).filter
    fun q => inBounds img q.1 q.2

/-- HistoryManager (history.js): the ordered list of snapshots and the
currentIndex pointer (-1 when empty).  The snapshot payload is abstract:
the source captures composite canvas data, the layer-stack export and the
tool properties into one state object. -/
structure HistoryManager (α : Type) where
  history : List α
  currentIndex : ℤ
deriving DecidableEq

/-- Fixed entry cap this.maxHistorySize = 50. -/
def HistoryManager.maxHistorySize : ℕ := 50

/-- HistoryManager.canUndo: currentIndex > 0. -/
def HistoryManager.canUndo {α : Type} (h : HistoryManager α) : Bool :=
  decide (0 < h.currentIndex)

/-- HistoryManager.canRedo: currentIndex < history.length - 1. -/
def HistoryManager.canRedo {α : Type} (h : HistoryManager α) : Bool :=
  decide (h.currentIndex < (h.history.length : ℤ) - 1)

/-- HistoryManager.saveState given the captured state object: truncate
everything after currentIndex when not at the tail (splice), push the new
entry, then either evict the oldest entry without advancing currentIndex
(when the cap is exceeded) or advance currentIndex. -/
def HistoryManager.saveState {α : Type} (h : HistoryManager α) (st : α) : HistoryManager α :=
  let base := if h.currentIndex < (h.history.length : ℤ) - 1 then
      h.history.take (h.currentIndex + 1).toNat
    else h.history
  let pushed := base ++ [st]
  if HistoryManager.maxHistorySize < pushed.length then
    { history := pushed.drop 1, currentIndex := h.currentIndex }
  else
    { history := pushed, currentIndex := h.currentIndex + 1 }

/-- Editor couples the live document with the HistoryManager: doc stands
for the global state that captureCanvasState / captureLayersState /
capturePropertiesState serialize on save and that restoreState overwrites
wholesale on undo / redo / jump. -/
structure Editor (α : Type) where
  doc : α
  hm : HistoryManager α
deriving DecidableEq

/-- HistoryManager.saveState at a call site: the pushed entry is the
captured current document. -/
def Editor.saveState {α : Type} (e : Editor α) : Editor α :=
  { e with hm := e.hm.saveState e.doc }

/-- HistoryManager.undo: fail when canUndo is false, otherwise decrement
currentIndex and restore the entry now at currentIndex (restoreState is
the wholesale overwrite of the document; the getD default is never
reached when the index invariant holds). -/
def Editor.undo {α : Type} (e : Editor α) : Bool × Editor α :=
  if e.hm.canUndo then
    let i := e.hm.currentIndex - 1
    (true, { doc := e.hm.history.getD i.toNat e.doc,
             hm := { history := e.hm.history, currentIndex := i } })
  else (false, e)

/-- HistoryManager.redo: fail when canRedo is false, otherwise increment
currentIndex and restore the entry now at currentIndex. -/
def Editor.redo {α : Type} (e : Editor α) : Bool × Editor α :=
  if e.hm.canRedo then
    let i := e.hm.currentIndex + 1
    (true, { doc := e.hm.history.getD i.toNat e.doc,
             hm := { history := e.hm.history, currentIndex := i } })
  else (false, e)

/-- HistoryManager.jumpToState: reject a target outside
[0, history.length), otherwise set currentIndex to the target and restore
that entry. -/
def Editor.jumpToState {α : Type} (e : Editor α) (targetIndex : ℤ) : Bool × Editor α :=
  if targetIndex < 0 ∨ (e.hm.history.length : ℤ) ≤ targetIndex then (false, e)
  else (true, { doc := e.hm.history.getD targetIndex.toNat e.doc,
                hm := { history := e.hm.history, currentIndex := targetIndex } })

/-- Iterated undo calls (the result state after k presses, failed calls
leaving the state unchanged). -/
def Editor.undoN {α : Type} (e : Editor α) : ℕ → Editor α
  | 0 => e
  | k + 1 => (Editor.undoN e k).undo.2

/-- Iterated redo calls. -/
def Editor.redoN {α : Type} (e : Editor α) : ℕ → Editor α
  | 0 => e
  | k + 1 => (Editor.redoN e k).redo.2

/-- Layer record of LayerManager.createLayer.  The pixel surface type C
is kept generic: the source stores an offscreen canvas, and every layer
operation below treats its contents through the explicit compositing or
resizing operation it is handed.  The derived thumbnail (a UI cache
regenerated from the canvas) carries no document state and is not
modelled. -/
structure LayerT (C : Type) where
  id : ℕ
  name : String
  visible : Bool
  opacity : ℚ
  blendMode : String
  canvas : C
  locked : Bool
deriving DecidableEq

/-- LayerManager: the bottom-to-top layer sequence, the active index (-1
before the default layer exists) and the monotone id counter. -/
structure LayerManager (C : Type) where
  layers : List (LayerT C)
  activeLayerIndex : ℤ
  layerIdCounter : ℕ
deriving DecidableEq

/-- The LayerStack invariant stated by the spec: at least one layer, and
activeLayerIndex a valid index into the sequence. -/
def lmInvariant {C : Type} (lm : LayerManager C) : Prop :=
  0 < lm.layers.length ∧ 0 ≤ lm.activeLayerIndex ∧
    lm.activeLayerIndex < (lm.layers.length : ℤ)

instance {C : Type} (lm : LayerManager C) : Decidable (lmInvariant lm) := by
  unfold lmInvariant; infer_instance

/-- LayerManager.createLayer: push a fresh layer (opacity 1, blend mode
normal, unlocked) at the end of the sequence; an empty name defaults to
Layer followed by the id.  The canvas argument stands for the explicit
canvas parameter, or the blank main-canvas-sized surface made by
createLayerCanvas when the source is passed null. -/
def LayerManager.createLayer {C : Type} (lm : LayerManager C) (name : String)
    (visible : Bool) (canvas : C) : LayerT C × LayerManager C :=
  let cnt := lm.layerIdCounter + 1
  let nm := if name = "" then "Layer " ++ toString cnt else name
  let layer : LayerT C :=
    { id := cnt, name := nm, visible := visible, opacity := 1,
      blendMode := "normal", canvas := canvas, locked := false }
  (layer, { lm with layers := lm.layers ++ [layer], layerIdCounter := cnt })

/-- LayerManager.setActiveLayer: reject an out-of-range index, otherwise
set activeLayerIndex (the canvas sync it triggers is display-only). -/
def LayerManager.setActiveLayer {C : Type} (lm : LayerManager C) (index : ℤ) :
    Bool × LayerManager C :=
  if index < 0 ∨ (lm.layers.length : ℤ) ≤ index then (false, lm)
  else (true, { lm with activeLayerIndex := index })

/-- Exported layer record of LayerManager.exportLayers, the element shape
consumed by importLayers.  The encoded pixel payload dataURL is modelled
as the decoded surface itself: canvas.toDataURL and the Image decode are
inverse external browser primitives. -/
structure LayerData (C : Type) where
  id : ℕ
  name : String
  visible : Bool
  opacity : ℚ
  blendMode : String
  locked : Bool
  dataURL : C
deriving DecidableEq

/-- LayerManager.importLayers: clear the sequence and the active index,
then rebuild one layer per record.  The asynchronous image loads are
modelled as completing synchronously in order; setActiveLayer 0 runs in
the last load's callback once the rebuilt sequence reaches the length of
the input, hence it never runs when the input list is empty. -/
def LayerManager.importLayers {C : Type} (lm : LayerManager C)
    (layersData : List (LayerData C)) : LayerManager C :=
  let lm0 : LayerManager C :=
    { layers := [], activeLayerIndex := -1, layerIdCounter := lm.layerIdCounter }
  let rebuilt := layersData.map fun ld =>
    ({ id := ld.id, name := ld.name, visible := ld.visible, opacity := ld.opacity,
       blendMode := ld.blendMode, canvas := ld.dataURL, locked := ld.locked } : LayerT C)
  let lm1 := { lm0 with layers := rebuilt }
  if layersData.isEmpty then lm1 else (lm1.setActiveLayer 0).2

/-- LayerManager.resizeAllLayers: every layer's canvas is rescaled in
place (the source reallocates the canvas at the new size and redraws the
old content into it, abstracted by resizeOp); the layer sequence and the
active index are untouched.  No history snapshot is taken here. -/
def LayerManager.resizeAllLayers {C : Type} (lm : LayerManager C) (resizeOp : C → C) :
    LayerManager C :=
  { lm with layers := lm.layers.map fun l => { l with canvas := resizeOp l.canvas } }

/-- Combined state of the layer operations that call
window.historyManager.saveState: the layer stack plus the history log.
The capture argument of each operation stands for the snapshot assembled
by saveState from the globals at call time. -/
structure LMApp (C α : Type) where
  lm : LayerManager C
  hm : HistoryManager α
deriving DecidableEq

/-- LayerManager.addLayer: create the layer, make it active (it is the
new last index) and save a history snapshot. -/
def LMApp.addLayer {C α : Type} (st : LMApp C α) (capture : LayerManager C → α)
    (name : String) (blank : C) : LMApp C α :=
  let lm1 := (st.lm.createLayer name true blank).2
  let lm2 := (lm1.setActiveLayer ((lm1.layers.length : ℤ) - 1)).2
  { lm := lm2, hm := st.hm.saveState (capture lm2) }

/-- LayerManager.deleteLayer: reject when only one layer remains (the
user-facing alert carries no state) or when the index is out of range;
otherwise splice the layer out, pull activeLayerIndex down by one
(floored at 0) when it sat at or above the removed index, and save a
history snapshot. -/
def LMApp.deleteLayer {C α : Type} (st : LMApp C α) (capture : LayerManager C → α)
    (index : ℤ) : Bool × LMApp C α :=
  if st.lm.layers.length ≤ 1 then (false, st)
  else if index < 0 ∨ (st.lm.layers.length : ℤ) ≤ index then (false, st)
  else
    let layers := st.lm.layers.eraseIdx index.toNat
    let a := if index ≤ st.lm.activeLayerIndex then max 0 (st.lm.activeLayerIndex - 1)
      else st.lm.activeLayerIndex
    let lm1 := { st.lm with layers := layers, activeLayerIndex := a }
    (true, { lm := lm1, hm := st.hm.saveState (capture lm1) })

/-- LayerManager.duplicateLayer: reject an out-of-range index; otherwise
deep-copy the source layer (value semantics make the canvas copy the same
surface value), push it through createLayer so it takes a fresh id and
the name plus Copy, receive the copied opacity and blend mode, move it
from the end to the slot right above the original (splice of the popped
element), make it active and save a history snapshot. -/
def LMApp.duplicateLayer {C α : Type} (st : LMApp C α) (capture : LayerManager C → α)
    (index : ℤ) : Option (LayerT C) × LMApp C α :=
  if index < 0 ∨ (st.lm.layers.length : ℤ) ≤ index then (none, st)
  else
    match st.lm.layers[index.toNat]? with
    | none => (none, st)
    | some orig =>
      let cnt := st.lm.layerIdCounter + 1
      let copy : LayerT C :=
        { id := cnt, name := orig.name ++ " Copy", visible := true,
          opacity := orig.opacity, blendMode := orig.blendMode,
          canvas := orig.canvas, locked := false }
      let lm1 : LayerManager C :=
        { layers := st.lm.layers.insertIdx (index.toNat + 1) copy,
          activeLayerIndex := st.lm.activeLayerIndex, layerIdCounter := cnt }
      let lm2 := (lm1.setActiveLayer (index + 1)).2
      (some copy, { lm := lm2, hm := st.hm.saveState (capture lm2) })

/-- LayerManager.moveLayer: reject when either index is out of range;
otherwise splice the layer out of fromIndex, splice it back in at
toIndex, re-home activeLayerIndex to track the moved layer or shift it by
one when the move crosses it, and save a history snapshot. -/
def LMApp.moveLayer {C α : Type} (st : LMApp C α) (capture : LayerManager C → α)
    (fromIndex toIndex : ℤ) : Bool × LMApp C α :=
  if fromIndex < 0 ∨ (st.lm.layers.length : ℤ) ≤ fromIndex ∨
      toIndex < 0 ∨ (st.lm.layers.length : ℤ) ≤ toIndex then (false, st)
  else
    match st.lm.layers[fromIndex.toNat]? with
    | none => (false, st)
    | some layer =>
      let layers := (st.lm.layers.eraseIdx fromIndex.toNat).insertIdx toIndex.toNat layer
      let a := st.lm.activeLayerIndex
      let a2 :=
        if a = fromIndex then toIndex
        else if fromIndex < a ∧ a ≤ toIndex then a - 1
        else if a < fromIndex ∧ toIndex ≤ a then a + 1
        else a
      let lm1 := { st.lm with layers := layers, activeLayerIndex := a2 }
      (true, { lm := lm1, hm := st.hm.saveState (capture lm1) })

/-- LayerManager.mergeDown: reject the bottom layer and out-of-range
indices; otherwise draw the upper layer onto the lower layer's canvas
under the upper layer's own opacity and blend mode (compOp abstracts the
canvas drawImage under globalAlpha / globalCompositeOperation), delete
the upper layer through deleteLayer (which saves its own history
snapshot), and save a second history snapshot.  The thumbnail
regeneration is a UI cache and is not modelled. -/
def LMApp.mergeDown {C α : Type} (st : LMApp C α) (capture : LayerManager C → α)
    (compOp : C → C → ℚ → String → C) (index : ℤ) : Bool × LMApp C α :=
  if index ≤ 0 ∨ (st.lm.layers.length : ℤ) ≤ index then (false, st)
  else
    match st.lm.layers[index.toNat]?, st.lm.layers[index.toNat - 1]? with
    | some upper, some lower =>
      let merged : LayerT C :=
        { lower with canvas := compOp lower.canvas upper.canvas upper.opacity upper.blendMode }
      let st1 : LMApp C α :=
        { st with lm := { st.lm with layers := st.lm.layers.set (index.toNat - 1) merged } }
      let st2 := (st1.deleteLayer capture index).2
      (true, { st2 with hm := st2.hm.saveState (capture st2.lm) })
    | _, _ => (false, st)

/-- LayerManager.flattenImage: a no-op on a stack of one layer; otherwise
replace the whole sequence by a single Flattened layer holding a copy of
the main canvas (which the app keeps equal to the rendered composite),
make it active and save a history snapshot. -/
def LMApp.flattenImage {C α : Type} (st : LMApp C α) (capture : LayerManager C → α)
    (mainCanvas : C) : LMApp C α :=
  if st.lm.layers.length ≤ 1 then st
  else
    let lm0 : LayerManager C :=
      { layers := [], activeLayerIndex := -1, layerIdCounter := st.lm.layerIdCounter }
    let lm1 := (lm0.createLayer "Flattened" true mainCanvas).2
    let lm2 := (lm1.setActiveLayer 0).2
    { lm := lm2, hm := st.hm.saveState (capture lm2) }

/-- CanvasManager's drawing state machine: the live document and history
(the Editor), the Idle / Active flag isDrawing, and the per-operation
start point and pointer path. -/
structure CanvasManager (α : Type) where
  ed : Editor α
  isDrawing : Bool
  startPoint : Option (ℚ × ℚ)
  currentPath : List (ℚ × ℚ)
deriving DecidableEq

/-- CanvasManager.startDrawing: set isDrawing, record the start point,
reset the path to the single start sample, save a history snapshot of the
document as it stands, then invoke the current tool's start hook (onStart
abstracts the hook's mutation of the drawing surface).  The cursor update
is display-only. -/
def CanvasManager.startDrawing {α : Type} (cm : CanvasManager α) (coords : ℚ × ℚ)
    (onStart : α → α) : CanvasManager α :=
  let ed1 := cm.ed.saveState
  let ed2 : Editor α := { ed1 with doc := onStart ed1.doc }
  { ed := ed2, isDrawing := true, startPoint := some coords, currentPath := [coords] }

/-- CanvasManager.cancelCurrentOperation: a no-op when Idle; when Active,
drop back to Idle, clear the overlay preview and path bookkeeping, and
call HistoryManager.undo once to roll the document back. -/
def CanvasManager.cancelCurrentOperation {α : Type} (cm : CanvasManager α) :
    CanvasManager α :=
  if cm.isDrawing then
    { ed := cm.ed.undo.2, isDrawing := false, startPoint := none, currentPath := [] }
  else cm

/-- Concrete two-layer stack used to exercise the layer operations (the
surface type instantiated by a plain number). -/
def sampleLM2 : LayerManager ℕ :=
  ⟨[⟨1, "a", true, 1, "normal", 100, false⟩, ⟨2, "b", true, 1, "normal", 200, false⟩], 1, 2⟩

/-- Concrete combined state: the two-layer stack with an empty history. -/
def sampleApp2 : LMApp ℕ ℕ := ⟨sampleLM2, ⟨[], -1⟩⟩

/-- Concrete snapshot capture used by the witnesses: record the stack size. -/
def captureLen : LayerManager ℕ → ℕ := fun lm => lm.layers.length

/-- Concrete 2 x 1 RGBA image used by the blur witness. -/
def sampleImg : ImageData := ⟨2, 1, [10, 20, 30, 40, 50, 60, 70, 80]⟩

/-- Concrete composite used by the witnesses (surface values are plain
numbers, compositing just adds them). -/
def sampleCompOp : ℕ → ℕ → ℚ → String → ℕ := fun d s _o _m => d + s

/-- The one-layer stack left by mergeDown on a two-layer stack: the lower
layer keeps its metadata, its canvas now holds the upper layer composited
onto it under the upper layer's own opacity and blend mode, the merged
layer is active, and the id counter is unchanged. -/
def mergedTwoLayer {C : Type} (compOp : C → C → ℚ → String → C) (l0 l1 : LayerT C)
    (cnt : ℕ) : LayerManager C :=
  ⟨[⟨l0.id, l0.name, l0.visible, l0.opacity, l0.blendMode,
      compOp l0.canvas l1.canvas l1.opacity l1.blendMode, l0.locked⟩], 0, cnt⟩

theorem u8write_le255 (x : ℚ) : u8write x ≤ 255 :=
  Nat.min_le_right _ _

theorem roundTiesEven_intCast (n : ℤ) : roundTiesEven ((n : ℚ)) = n := by
  unfold roundTiesEven
  norm_num

theorem u8write_natCast (n : ℕ) (h : n ≤ 255) : u8write ((n : ℚ)) = n := by
  have hr : roundTiesEven ((n : ℚ)) = (n : ℤ) := by
    have := roundTiesEven_intCast (n : ℤ)
    push_cast at this
    exact this
  unfold u8write
  rw [hr]
  omega

theorem grayscale_fix (v : ℚ) :
    u8write ((u8write v : ℚ) * (299/1000) + (u8write v : ℚ) * (587/1000)
      + (u8write v : ℚ) * (114/1000)) = u8write v := by
  have h : (u8write v : ℚ) * (299/1000) + (u8write v : ℚ) * (587/1000)
      + (u8write v : ℚ) * (114/1000) = ((u8write v : ℕ) : ℚ) := by ring
  rw [h, u8write_natCast _ (u8write_le255 v)]

/-- Claim C8: applying the grayscale filter twice produces the same pixel
data as applying it once: after one application (each pixel's R, G, B set
to the luma 0.299 R + 0.587 G + 0.114 B), a second application changes no
channel of any pixel. -/
theorem claim_C8_grayscale_idempotent (d : List ℕ) :
    convertToGrayscale (convertToGrayscale d) = convertToGrayscale d := by
  induction d using convertToGrayscale.induct with
  | case1 r g b a rest ih =>
      simp only [convertToGrayscale, grayscale_fix, ih]
  | case2 l h =>
      match l, h with
      | [], _ => rfl
      | [x], _ => rfl
      | [x, y], _ => rfl
      | [x, y, z], _ => rfl
      | x :: y :: z :: w :: rest, h => exact (h x y z w rest rfl).elim

/-- Claim C9: the invert filter is an involution: on any surface whose
bytes are in range, applying invert twice restores the original pixel
data (each R, G, B maps to 255 minus its value, alpha unchanged). -/
theorem claim_C9_invert_involution (d : List ℕ) (h : ∀ v ∈ d, v ≤ 255) :
    invertColors (invertColors d) = d := by
  induction d using invertColors.induct with
  | case1 r g b a rest ih =>
      have hr : r ≤ 255 := h r (by simp)
      have hg : g ≤ 255 := h g (by simp)
      have hb : b ≤ 255 := h b (by simp)
      have hrest : ∀ v ∈ rest, v ≤ 255 := fun v hv => h v (by simp [hv])
      simp only [invertColors, ih hrest, Nat.sub_sub_self hr, Nat.sub_sub_self hg,
        Nat.sub_sub_self hb]
  | case2 l hl =>
      match l, hl with
      | [], _ => rfl
      | [x], _ => rfl
      | [x, y], _ => rfl
      | [x, y, z], _ => rfl
      | x :: y :: z :: w :: rest, hl => exact (hl x y z w rest rfl).elim

theorem claim_C9_witness :
    (∀ v ∈ [10, 20, 30, 40, 250, 251, 252, 253], v ≤ 255) ∧
      invertColors (invertColors [10, 20, 30, 40, 250, 251, 252, 253])
        = [10, 20, 30, 40, 250, 251, 252, 253] :=
  ⟨by decide, claim_C9_invert_involution _ (by decide)⟩

theorem saveState_not_at_tail {α : Type} (h : HistoryManager α) (st : α)
    (h1 : h.currentIndex < (h.history.length : ℤ) - 1)
    (h2 : h.history.length ≤ HistoryManager.maxHistorySize) :
    h.saveState st
      = ⟨h.history.take (h.currentIndex + 1).toNat ++ [st], h.currentIndex + 1⟩ := by
  have h2a : h.history.length ≤ 50 := h2
  have hc : ¬ (HistoryManager.maxHistorySize
      < (h.history.take (h.currentIndex + 1).toNat ++ [st]).length) := by
    simp only [List.length_append, List.length_take, List.length_cons, List.length_nil]
    unfold HistoryManager.maxHistorySize
    omega
  simp only [HistoryManager.saveState]
  rw [if_pos h1, if_neg hc]

theorem saveState_at_tail {α : Type} (h : HistoryManager α) (st : α)
    (h1 : (h.history.length : ℤ) - 1 ≤ h.currentIndex)
    (h2 : h.history.length + 1 ≤ HistoryManager.maxHistorySize) :
    h.saveState st = ⟨h.history ++ [st], h.currentIndex + 1⟩ := by
  have h2a : h.history.length + 1 ≤ 50 := h2
  have hc : ¬ (HistoryManager.maxHistorySize < (h.history ++ [st]).length) := by
    simp only [List.length_append, List.length_cons, List.length_nil]
    unfold HistoryManager.maxHistorySize
    omega
  simp only [HistoryManager.saveState]
  rw [if_neg (show ¬ (h.currentIndex < (h.history.length : ℤ) - 1) from by omega)]
  rw [if_neg hc]

/-- Claim C2: on a history log not at its last entry (as after one or
more successful undo calls, and within the entry cap), saveState removes
every entry after currentIndex before appending the new snapshot, steps
currentIndex onto the new tail, and a redo immediately afterwards returns
false. -/
theorem claim_C2_saveState_truncates_redo_fails {α : Type} (e : Editor α)
    (h0 : 0 ≤ e.hm.currentIndex)
    (h1 : e.hm.currentIndex < (e.hm.history.length : ℤ) - 1)
    (h2 : e.hm.history.length ≤ HistoryManager.maxHistorySize) :
    e.saveState.hm.history
        = e.hm.history.take (e.hm.currentIndex + 1).toNat ++ [e.doc] ∧
      e.saveState.hm.currentIndex = e.hm.currentIndex + 1 ∧
      e.saveState.redo.1 = false := by
  have hs := saveState_not_at_tail e.hm e.doc h1 h2
  have hred : (Editor.saveState e).hm.canRedo = false := by
    simp only [Editor.saveState, hs, HistoryManager.canRedo, List.length_append,
      List.length_take, List.length_cons, List.length_nil, decide_eq_false_iff_not]
    push_cast
    omega
  refine ⟨by simp [Editor.saveState, hs], by simp [Editor.saveState, hs], ?_⟩
  rw [Editor.redo, hred]
  simp

theorem claim_C2_witness :
    (0 : ℤ) ≤ (0 : ℤ) ∧ (0 : ℤ) < (3 : ℤ) - 1 ∧ (3 : ℕ) ≤ HistoryManager.maxHistorySize ∧
      ((⟨9, ⟨[4, 5, 6], 0⟩⟩ : Editor ℕ).saveState.hm.history
          = [4, 5, 6].take ((0 : ℤ) + 1).toNat ++ [9] ∧
        (⟨9, ⟨[4, 5, 6], 0⟩⟩ : Editor ℕ).saveState.hm.currentIndex = (0 : ℤ) + 1 ∧
        (⟨9, ⟨[4, 5, 6], 0⟩⟩ : Editor ℕ).saveState.redo.1 = false) :=
  ⟨by decide, by decide, by decide,
    claim_C2_saveState_truncates_redo_fails (⟨9, ⟨[4, 5, 6], 0⟩⟩ : Editor ℕ)
      (by decide) (by decide) (by decide)⟩

/-- Claim C10: jumpToState rejects a target below 0 or at or beyond the
history length (also on an empty log), leaving the whole state unchanged
and returning false; on any in-range target, whatever its distance or
direction from the current position, it sets currentIndex to the target,
restores that entry, and returns true. -/
theorem claim_C10_jumpToState_spec {α : Type} (e : Editor α) (t : ℤ) :
    ((t < 0 ∨ (e.hm.history.length : ℤ) ≤ t) → e.jumpToState t = (false, e)) ∧
      (0 ≤ t → t < (e.hm.history.length : ℤ) →
        e.jumpToState t = (true, ⟨e.hm.history.getD t.toNat e.doc, ⟨e.hm.history, t⟩⟩)) := by
  constructor
  · intro h
    rw [Editor.jumpToState, if_pos h]
  · intro ht1 ht2
    rw [Editor.jumpToState, if_neg (by omega)]

theorem claim_C10_witness :
    (Editor.jumpToState (⟨7, ⟨[3, 4], 1⟩⟩ : Editor ℕ) 5
        = (false, (⟨7, ⟨[3, 4], 1⟩⟩ : Editor ℕ))) ∧
      Editor.jumpToState (⟨7, ⟨[3, 4], 1⟩⟩ : Editor ℕ) 0
        = (true, ⟨[3, 4].getD (0 : ℤ).toNat 7, ⟨[3, 4], 0⟩⟩) :=
  ⟨(claim_C10_jumpToState_spec (⟨7, ⟨[3, 4], 1⟩⟩ : Editor ℕ) 5).1 (by decide),
    (claim_C10_jumpToState_spec (⟨7, ⟨[3, 4], 1⟩⟩ : Editor ℕ) 0).2 (by decide) (by decide)⟩

theorem getD_default_irrel {α : Type} (l : List α) (n : ℕ) (d1 d2 : α)
    (h : n < l.length) : l.getD n d1 = l.getD n d2 := by
  simp [List.getD_eq_getElem?_getD, List.getElem?_eq_getElem h]

/-- Claim C5: deleteLayer on a one-layer stack fails for every index and
changes nothing; on a larger stack a valid index succeeds leaving exactly
one layer fewer and a valid active index, and an out-of-range index fails
with no mutation. -/
theorem claim_C5_deleteLayer_spec {C α : Type} (st : LMApp C α)
    (capture : LayerManager C → α) (index : ℤ) (hinv : lmInvariant st.lm) :
    (st.lm.layers.length = 1 → st.deleteLayer capture index = (false, st)) ∧
      (1 < st.lm.layers.length → 0 ≤ index → index < (st.lm.layers.length : ℤ) →
        (st.deleteLayer capture index).1 = true ∧
          (st.deleteLayer capture index).2.lm.layers.length
            = st.lm.layers.length - 1 ∧
          lmInvariant (st.deleteLayer capture index).2.lm) ∧
      (1 < st.lm.layers.length →
        (index < 0 ∨ (st.lm.layers.length : ℤ) ≤ index) →
        st.deleteLayer capture index = (false, st)) := by
  obtain ⟨hpos, ha0, ha1⟩ := hinv
  refine ⟨?_, ?_, ?_⟩
  · intro h
    simp only [LMApp.deleteLayer]
    rw [if_pos (by omega)]
  · intro hlen hi1 hi2
    have herase : (st.lm.layers.eraseIdx index.toNat).length = st.lm.layers.length - 1 :=
      List.length_eraseIdx_of_lt (by omega)
    simp only [LMApp.deleteLayer]
    rw [if_neg (by omega), if_neg (by omega)]
    refine ⟨rfl, herase, ?_⟩
    unfold lmInvariant
    simp only [herase]
    refine ⟨by omega, ?_, ?_⟩
    all_goals split
    all_goals omega
  · intro hlen hi
    simp only [LMApp.deleteLayer]
    rw [if_neg (by omega), if_pos hi]

theorem claim_C5_witness :
    lmInvariant sampleApp2.lm ∧
      ((sampleApp2.lm.layers.length = 1 →
          sampleApp2.deleteLayer captureLen 1 = (false, sampleApp2)) ∧
        (1 < sampleApp2.lm.layers.length → (0 : ℤ) ≤ 1 →
          (1 : ℤ) < (sampleApp2.lm.layers.length : ℤ) →
          (sampleApp2.deleteLayer captureLen 1).1 = true ∧
            (sampleApp2.deleteLayer captureLen 1).2.lm.layers.length
              = sampleApp2.lm.layers.length - 1 ∧
            lmInvariant (sampleApp2.deleteLayer captureLen 1).2.lm) ∧
        (1 < sampleApp2.lm.layers.length →
          ((1 : ℤ) < 0 ∨ (sampleApp2.lm.layers.length : ℤ) ≤ 1) →
          sampleApp2.deleteLayer captureLen 1 = (false, sampleApp2))) :=
  ⟨by decide, claim_C5_deleteLayer_spec sampleApp2 captureLen 1 (by decide)⟩

theorem undoN_zero {α : Type} (e : Editor α) : Editor.undoN e 0 = e := rfl

theorem redoN_zero {α : Type} (e : Editor α) : Editor.redoN e 0 = e := rfl

theorem undo_of_pos {α : Type} (e : Editor α) (h : 0 < e.hm.currentIndex) :
    e.undo = (true, ⟨e.hm.history.getD (e.hm.currentIndex - 1).toNat e.doc,
      ⟨e.hm.history, e.hm.currentIndex - 1⟩⟩) := by
  rw [Editor.undo, if_pos]
  simp only [HistoryManager.canUndo, decide_eq_true_eq]
  exact h

theorem redo_of_lt {α : Type} (e : Editor α)
    (h : e.hm.currentIndex < (e.hm.history.length : ℤ) - 1) :
    e.redo = (true, ⟨e.hm.history.getD (e.hm.currentIndex + 1).toNat e.doc,
      ⟨e.hm.history, e.hm.currentIndex + 1⟩⟩) := by
  rw [Editor.redo, if_pos]
  simp only [HistoryManager.canRedo, decide_eq_true_eq]
  exact h

theorem undoN_spec {α : Type} (e : Editor α)
    (hlt : e.hm.currentIndex < (e.hm.history.length : ℤ)) :
    ∀ k : ℕ, 1 ≤ k → (k : ℤ) ≤ e.hm.currentIndex →
      Editor.undoN e k
        = ⟨e.hm.history.getD (e.hm.currentIndex - k).toNat e.doc,
           ⟨e.hm.history, e.hm.currentIndex - k⟩⟩ := by
  intro k
  induction k with
  | zero => omega
  | succ k ih =>
    intro _ hk
    by_cases hk1 : 1 ≤ k
    · have hrec := ih hk1 (by push_cast at hk ⊢; omega)
      show (Editor.undoN e k).undo.2 = _
      rw [hrec, undo_of_pos _ (by push_cast at hk ⊢; omega)]
      have hidx : e.hm.currentIndex - (k : ℤ) - 1 = e.hm.currentIndex - ((k : ℕ) + 1 : ℕ) := by
        push_cast
        ring
      simp only [hidx]
      congr 1
      exact getD_default_irrel _ _ _ _ (by push_cast at hk ⊢; omega)
    · have hk0 : k = 0 := by omega
      subst hk0
      show (Editor.undoN e 0).undo.2 = _
      rw [undoN_zero, undo_of_pos _ (by push_cast at hk ⊢; omega)]
      norm_num

theorem redoN_spec {α : Type} (e : Editor α) (h0 : 0 ≤ e.hm.currentIndex) :
    ∀ k : ℕ, 1 ≤ k → e.hm.currentIndex + k ≤ (e.hm.history.length : ℤ) - 1 →
      Editor.redoN e k
        = ⟨e.hm.history.getD (e.hm.currentIndex + k).toNat e.doc,
           ⟨e.hm.history, e.hm.currentIndex + k⟩⟩ := by
  intro k
  induction k with
  | zero => omega
  | succ k ih =>
    intro _ hk
    by_cases hk1 : 1 ≤ k
    · have hrec := ih hk1 (by push_cast at hk ⊢; omega)
      show (Editor.redoN e k).redo.2 = _
      rw [hrec, redo_of_lt _ (by push_cast at hk ⊢; omega)]
      have hidx : e.hm.currentIndex + (k : ℤ) + 1 = e.hm.currentIndex + ((k : ℕ) + 1 : ℕ) := by
        push_cast
        ring
      simp only [hidx]
      congr 1
      exact getD_default_irrel _ _ _ _ (by push_cast at hk ⊢; omega)
    · have hk0 : k = 0 := by omega
      subst hk0
      show (Editor.redoN e 0).redo.2 = _
      rw [redoN_zero, redo_of_lt _ (by push_cast at hk ⊢; omega)]
      norm_num

theorem undo_success_bound {α : Type} (e : Editor α)
    (hlt : e.hm.currentIndex < (e.hm.history.length : ℤ)) :
    ∀ k : ℕ, 1 ≤ k → (∀ j, j < k → (Editor.undoN e j).undo.1 = true) →
      (k : ℤ) ≤ e.hm.currentIndex := by
  intro k
  induction k with
  | zero => omega
  | succ k ih =>
    intro _ hsucc
    by_cases hk1 : 1 ≤ k
    · have hk := ih hk1 (fun j hj => hsucc j (by omega))
      have hs := hsucc k (by omega)
      rw [undoN_spec e hlt k hk1 hk, Editor.undo] at hs
      split at hs
      · rename_i hcan
        simp only [HistoryManager.canUndo, decide_eq_true_eq] at hcan
        push_cast
        omega
      · simp at hs
    · have hk0 : k = 0 := by omega
      subst hk0
      have hs := hsucc 0 (by omega)
      rw [undoN_zero] at hs
      rw [Editor.undo] at hs
      split at hs
      · rename_i hcan
        simp only [HistoryManager.canUndo, decide_eq_true_eq] at hcan
        push_cast
        omega
      · simp at hs

/-- Claim C1: whenever k successive undo calls succeed and k redo calls
follow, the document restored after the final redo is exactly the state
captured in the history entry that was current before the first undo
(and currentIndex is back at that entry). -/
theorem claim_C1_undo_redo_roundtrip {α : Type} (e : Editor α) (k : ℕ)
    (hk : 1 ≤ k)
    (hinv : e.hm.currentIndex < (e.hm.history.length : ℤ))
    (hsucc : ∀ j, j < k → (Editor.undoN e j).undo.1 = true) :
    Editor.redoN (Editor.undoN e k) k
      = ⟨e.hm.history.getD e.hm.currentIndex.toNat e.doc,
         ⟨e.hm.history, e.hm.currentIndex⟩⟩ := by
  have hkc := undo_success_bound e hinv k hk hsucc
  have hu := undoN_spec e hinv k hk hkc
  rw [hu]
  rw [redoN_spec _ (by simp; omega) k hk (by simp; omega)]
  simp only []
  have hidx : e.hm.currentIndex - (k : ℤ) + (k : ℤ) = e.hm.currentIndex := by ring
  simp only [hidx]
  congr 1
  exact getD_default_irrel _ _ _ _ (by omega)

theorem claim_C1_witness :
    1 ≤ 2 ∧ (1 : ℤ) < (3 : ℤ) ∧
      (∀ j, j < 2 → (Editor.undoN (⟨99, ⟨[10, 20, 30], 2⟩⟩ : Editor ℕ) j).undo.1 = true) ∧
      Editor.redoN (Editor.undoN (⟨99, ⟨[10, 20, 30], 2⟩⟩ : Editor ℕ) 2) 2
        = ⟨[10, 20, 30].getD (2 : ℤ).toNat 99, ⟨[10, 20, 30], 2⟩⟩ :=
  ⟨by decide, by decide, by decide,
    claim_C1_undo_redo_roundtrip (⟨99, ⟨[10, 20, 30], 2⟩⟩ : Editor ℕ) 2
      (by decide) (by decide) (by decide)⟩

/-- Claim C6, checked at a concrete run: starting from history [0, 1]
with the document at 5, pointer-down snapshots the pre-operation document
(the new tail entry is 5, recorded before the start hook turned the
document into 15), but cancel's single undo then restores entry 1 - the
entry BEFORE the pre-operation snapshot - so the document ends at 1, not
at the pre-operation state 5. -/
theorem claim_C6_cancel_restores_older_entry :
    (CanvasManager.startDrawing (⟨⟨5, ⟨[0, 1], 1⟩⟩, false, none, []⟩ : CanvasManager ℕ)
        (0, 0) (fun d => d + 10)).ed.hm.history = [0, 1, 5] ∧
      (CanvasManager.startDrawing (⟨⟨5, ⟨[0, 1], 1⟩⟩, false, none, []⟩ : CanvasManager ℕ)
        (0, 0) (fun d => d + 10)).ed.doc = 15 ∧
      (CanvasManager.cancelCurrentOperation
          (CanvasManager.startDrawing (⟨⟨5, ⟨[0, 1], 1⟩⟩, false, none, []⟩ : CanvasManager ℕ)
            (0, 0) (fun d => d + 10))).ed.doc = 1 ∧
      (1 : ℕ) ≠ 5 := by
  refine ⟨?_, ?_, ?_, by decide⟩
  all_goals decide

theorem setActiveLayer_invariant {C : Type} (lm : LayerManager C) (index : ℤ)
    (hinv : lmInvariant lm) : lmInvariant (lm.setActiveLayer index).2 := by
  unfold LayerManager.setActiveLayer
  split
  · exact hinv
  · rename_i hcond
    push_neg at hcond
    exact ⟨hinv.1, hcond.1, hcond.2⟩

theorem deleteLayer_invariant {C α : Type} (st : LMApp C α) (capture : LayerManager C → α)
    (index : ℤ) (hinv : lmInvariant st.lm) :
    lmInvariant (st.deleteLayer capture index).2.lm := by
  obtain ⟨hpos, ha0, ha1⟩ := hinv
  simp only [LMApp.deleteLayer]
  by_cases h1 : st.lm.layers.length ≤ 1
  · rw [if_pos h1]
    exact ⟨hpos, ha0, ha1⟩
  · rw [if_neg h1]
    by_cases h2 : index < 0 ∨ (st.lm.layers.length : ℤ) ≤ index
    · rw [if_pos h2]
      exact ⟨hpos, ha0, ha1⟩
    · rw [if_neg h2]
      push_neg at h2
      have herase :=
        List.length_eraseIdx_of_lt (show index.toNat < st.lm.layers.length by omega)
      unfold lmInvariant
      simp only [herase]
      refine ⟨by omega, ?_, ?_⟩
      all_goals split
      all_goals omega

theorem createLayer_snd {C : Type} (lm : LayerManager C) (name : String)
    (visible : Bool) (canvas : C) :
    (lm.createLayer name visible canvas).2
      = ⟨lm.layers ++ [(lm.createLayer name visible canvas).1],
         lm.activeLayerIndex, lm.layerIdCounter + 1⟩ := by
  simp only [LayerManager.createLayer]

theorem setActiveLayer_inrange {C : Type} (lm : LayerManager C) (i : ℤ)
    (h0 : 0 ≤ i) (h1 : i < (lm.layers.length : ℤ)) :
    (lm.setActiveLayer i).2 = { lm with activeLayerIndex := i } := by
  unfold LayerManager.setActiveLayer
  rw [if_neg (by omega)]

theorem addLayer_invariant {C α : Type} (st : LMApp C α) (capture : LayerManager C → α)
    (name : String) (blank : C) : lmInvariant (st.addLayer capture name blank).lm := by
  simp only [LMApp.addLayer]
  have hlen1 : ((st.lm.createLayer name true blank).2).layers.length
      = st.lm.layers.length + 1 := by
    rw [createLayer_snd]
    simp
  rw [setActiveLayer_inrange _ _ (by rw [hlen1]; push_cast; omega)
    (by rw [hlen1]; push_cast; omega)]
  unfold lmInvariant
  simp only [hlen1]
  push_cast
  omega

theorem insert_setActive_invariant {C : Type} (layers : List (LayerT C)) (x : LayerT C)
    (a : ℤ) (cnt : ℕ) (n : ℕ) (i : ℤ) (hn : n ≤ layers.length) (h0 : 0 ≤ i)
    (h1 : i < (layers.length : ℤ) + 1) :
    lmInvariant ((LayerManager.setActiveLayer ⟨layers.insertIdx n x, a, cnt⟩ i).2) := by
  have hlen : (layers.insertIdx n x).length = layers.length + 1 :=
    List.length_insertIdx _ _ hn
  rw [setActiveLayer_inrange _ i h0 (by push_cast [hlen]; omega)]
  exact ⟨by rw [hlen]; omega, h0, by push_cast [hlen]; omega⟩

theorem duplicateLayer_invariant {C α : Type} (st : LMApp C α)
    (capture : LayerManager C → α) (index : ℤ) (hinv : lmInvariant st.lm) :
    lmInvariant (st.duplicateLayer capture index).2.lm := by
  obtain ⟨hpos, ha0, ha1⟩ := hinv
  simp only [LMApp.duplicateLayer]
  by_cases h1 : index < 0 ∨ (st.lm.layers.length : ℤ) ≤ index
  · rw [if_pos h1]
    exact ⟨hpos, ha0, ha1⟩
  · rw [if_neg h1]
    push_neg at h1
    have hidx : index.toNat < st.lm.layers.length := by omega
    obtain ⟨orig, horig⟩ : ∃ x, st.lm.layers[index.toNat]? = some x :=
      ⟨_, List.getElem?_eq_getElem hidx⟩
    rw [horig]
    exact insert_setActive_invariant _ _ _ _ _ _ (by omega) (by omega) (by omega)

theorem moveLayer_invariant {C α : Type} (st : LMApp C α)
    (capture : LayerManager C → α) (fromIndex toIndex : ℤ) (hinv : lmInvariant st.lm) :
    lmInvariant (st.moveLayer capture fromIndex toIndex).2.lm := by
  obtain ⟨hpos, ha0, ha1⟩ := hinv
  simp only [LMApp.moveLayer]
  by_cases h1 : fromIndex < 0 ∨ (st.lm.layers.length : ℤ) ≤ fromIndex ∨
      toIndex < 0 ∨ (st.lm.layers.length : ℤ) ≤ toIndex
  · rw [if_pos h1]
    exact ⟨hpos, ha0, ha1⟩
  · rw [if_neg h1]
    push_neg at h1
    obtain ⟨hf0, hf1, ht0, ht1⟩ := h1
    obtain ⟨layer, hlayer⟩ : ∃ x, st.lm.layers[fromIndex.toNat]? = some x :=
      ⟨_, List.getElem?_eq_getElem (by omega)⟩
    rw [hlayer]
    have herase : (st.lm.layers.eraseIdx fromIndex.toNat).length
        = st.lm.layers.length - 1 :=
      List.length_eraseIdx_of_lt (by omega)
    have hins : ((st.lm.layers.eraseIdx fromIndex.toNat).insertIdx toIndex.toNat layer).length
        = st.lm.layers.length - 1 + 1 := by
      rw [List.length_insertIdx _ _ (by rw [herase]; omega), herase]
    show lmInvariant
      ⟨(st.lm.layers.eraseIdx fromIndex.toNat).insertIdx toIndex.toNat layer,
        if st.lm.activeLayerIndex = fromIndex then toIndex
        else if fromIndex < st.lm.activeLayerIndex ∧ st.lm.activeLayerIndex ≤ toIndex then
          st.lm.activeLayerIndex - 1
        else if st.lm.activeLayerIndex < fromIndex ∧ toIndex ≤ st.lm.activeLayerIndex then
          st.lm.activeLayerIndex + 1
        else st.lm.activeLayerIndex,
        st.lm.layerIdCounter⟩
    unfold lmInvariant
    simp only [hins]
    refine ⟨by omega, ?_, ?_⟩
    all_goals split
    all_goals omega

theorem mergeDown_invariant {C α : Type} (st : LMApp C α)
    (capture : LayerManager C → α) (compOp : C → C → ℚ → String → C) (index : ℤ)
    (hinv : lmInvariant st.lm) :
    lmInvariant (st.mergeDown capture compOp index).2.lm := by
  simp only [LMApp.mergeDown]
  by_cases h1 : index ≤ 0 ∨ (st.lm.layers.length : ℤ) ≤ index
  · rw [if_pos h1]
    exact hinv
  · rw [if_neg h1]
    push_neg at h1
    obtain ⟨upper, hupper⟩ : ∃ x, st.lm.layers[index.toNat]? = some x :=
      ⟨_, List.getElem?_eq_getElem (by omega)⟩
    obtain ⟨lower, hlower⟩ : ∃ x, st.lm.layers[index.toNat - 1]? = some x :=
      ⟨_, List.getElem?_eq_getElem (by omega)⟩
    rw [hupper, hlower]
    have hset : ∀ x : LayerT C,
        lmInvariant ⟨st.lm.layers.set (index.toNat - 1) x,
          st.lm.activeLayerIndex, st.lm.layerIdCounter⟩ := by
      intro x
      obtain ⟨hpos, hb0, hb1⟩ := hinv
      exact ⟨by simpa using hpos, hb0, by simpa using hb1⟩
    exact deleteLayer_invariant _ capture index (hset _)

theorem flattenImage_invariant {C α : Type} (st : LMApp C α)
    (capture : LayerManager C → α) (mainCanvas : C) (hinv : lmInvariant st.lm) :
    lmInvariant (st.flattenImage capture mainCanvas).lm := by
  simp only [LMApp.flattenImage]
  split
  · exact hinv
  · rw [createLayer_snd, setActiveLayer_inrange _ 0 (by omega) (by simp)]
    exact ⟨by simp, by simp, by simp⟩

theorem importLayers_invariant {C : Type} (lm : LayerManager C)
    (layersData : List (LayerData C)) (hne : layersData ≠ []) :
    lmInvariant (lm.importLayers layersData) := by
  simp only [LayerManager.importLayers]
  rw [if_neg (by simpa using hne)]
  have hlen : 0 < layersData.length := List.length_pos.mpr hne
  rw [setActiveLayer_inrange _ 0 (by omega) (by simp; omega)]
  exact ⟨by simp; omega, by simp, by simp; omega⟩

theorem resizeAllLayers_invariant {C : Type} (lm : LayerManager C) (resizeOp : C → C)
    (hinv : lmInvariant lm) : lmInvariant (lm.resizeAllLayers resizeOp) := by
  obtain ⟨hpos, ha0, ha1⟩ := hinv
  unfold LayerManager.resizeAllLayers lmInvariant
  simpa using ⟨hpos, ha0, ha1⟩

/-- Counterexample to claim C3 as stated: importLayers given an empty
exported-layer list leaves the rebuilt stack empty with activeLayerIndex
-1 (the per-record load callbacks never run, so setActiveLayer 0 is never
reached), violating the invariant that held beforehand. -/
theorem claim_C3_counterexample :
    lmInvariant sampleLM2 ∧
      ¬ lmInvariant (sampleLM2.importLayers ([] : List (LayerData ℕ))) := by
  decide

/-- Claim C3 amended: every listed LayerStack operation preserves the
invariant (at least one layer, activeLayerIndex a valid index), except
that importLayers preserves it only when the imported layer list is
nonempty; on an empty list it leaves zero layers and activeLayerIndex
-1. -/
theorem claim_C3_amended_invariant_preservation {C α : Type} (st : LMApp C α)
    (capture : LayerManager C → α) (hinv : lmInvariant st.lm) :
    (∀ name blank, lmInvariant (st.addLayer capture name blank).lm) ∧
      (∀ index, lmInvariant (st.deleteLayer capture index).2.lm) ∧
      (∀ index, lmInvariant (st.duplicateLayer capture index).2.lm) ∧
      (∀ index, lmInvariant (st.lm.setActiveLayer index).2) ∧
      (∀ fromIndex toIndex, lmInvariant (st.moveLayer capture fromIndex toIndex).2.lm) ∧
      (∀ compOp index, lmInvariant (st.mergeDown capture compOp index).2.lm) ∧
      (∀ mainCanvas, lmInvariant (st.flattenImage capture mainCanvas).lm) ∧
      (∀ layersData, layersData ≠ [] → lmInvariant (st.lm.importLayers layersData)) ∧
      (∀ resizeOp, lmInvariant (st.lm.resizeAllLayers resizeOp)) :=
  ⟨fun name blank => addLayer_invariant st capture name blank,
    fun index => deleteLayer_invariant st capture index hinv,
    fun index => duplicateLayer_invariant st capture index hinv,
    fun index => setActiveLayer_invariant st.lm index hinv,
    fun fromIndex toIndex => moveLayer_invariant st capture fromIndex toIndex hinv,
    fun compOp index => mergeDown_invariant st capture compOp index hinv,
    fun mainCanvas => flattenImage_invariant st capture mainCanvas hinv,
    fun layersData hne => importLayers_invariant st.lm layersData hne,
    fun resizeOp => resizeAllLayers_invariant st.lm resizeOp hinv⟩

theorem claim_C3_witness :
    lmInvariant sampleApp2.lm ∧
      ((∀ name blank, lmInvariant (sampleApp2.addLayer captureLen name blank).lm) ∧
        (∀ index, lmInvariant (sampleApp2.deleteLayer captureLen index).2.lm) ∧
        (∀ index, lmInvariant (sampleApp2.duplicateLayer captureLen index).2.lm) ∧
        (∀ index, lmInvariant (sampleApp2.lm.setActiveLayer index).2) ∧
        (∀ fromIndex toIndex,
          lmInvariant (sampleApp2.moveLayer captureLen fromIndex toIndex).2.lm) ∧
        (∀ compOp index,
          lmInvariant (sampleApp2.mergeDown captureLen compOp index).2.lm) ∧
        (∀ mainCanvas, lmInvariant (sampleApp2.flattenImage captureLen mainCanvas).lm) ∧
        (∀ layersData, layersData ≠ [] →
          lmInvariant (sampleApp2.lm.importLayers layersData)) ∧
        (∀ resizeOp, lmInvariant (sampleApp2.lm.resizeAllLayers resizeOp))) :=
  ⟨by decide, claim_C3_amended_invariant_preservation sampleApp2 captureLen (by decide)⟩

theorem mergeDown_two_layers {C α : Type} (capture : LayerManager C → α)
    (compOp : C → C → ℚ → String → C) (l0 l1 : LayerT C) (hm : HistoryManager α)
    (cnt : ℕ) (a : ℤ) (ha0 : 0 ≤ a) (ha1 : a < 2) :
    LMApp.mergeDown ⟨⟨[l0, l1], a, cnt⟩, hm⟩ capture compOp 1
      = (true, ⟨mergedTwoLayer compOp l0 l1 cnt,
          (hm.saveState (capture (mergedTwoLayer compOp l0 l1 cnt))).saveState
            (capture (mergedTwoLayer compOp l0 l1 cnt))⟩) := by
  interval_cases a
  · rfl
  · rfl

/-- Counterexample to claim C4 as stated: on a concrete two-layer stack
with an empty history log, mergeDown leaves two new history entries, not
one, because deleteLayer saves a snapshot and mergeDown saves another. -/
theorem claim_C4_counterexample :
    (sampleApp2.mergeDown captureLen sampleCompOp 1).2.hm.history.length = 2 ∧
      ¬ (sampleApp2.mergeDown captureLen sampleCompOp 1).2.hm.history.length = 1 := by
  decide

/-- Claim C4 amended: for every two-layer stack (history at its tail and
two entries under the cap), mergeDown on the upper layer returns true and
produces a one-layer stack whose sole layer's surface is the upper layer
composited onto the lower using the upper layer's own opacity and blend
mode, and the operation appends exactly TWO new entries to the history
log - one saved by the embedded deleteLayer call, a second saved by
mergeDown itself. -/
theorem claim_C4_amended_mergeDown_two_entries {C α : Type}
    (capture : LayerManager C → α) (compOp : C → C → ℚ → String → C)
    (l0 l1 : LayerT C) (hm : HistoryManager α) (cnt : ℕ) (a : ℤ)
    (ha0 : 0 ≤ a) (ha1 : a < 2)
    (htail : hm.currentIndex = (hm.history.length : ℤ) - 1)
    (hcap : hm.history.length + 2 ≤ HistoryManager.maxHistorySize) :
    (LMApp.mergeDown ⟨⟨[l0, l1], a, cnt⟩, hm⟩ capture compOp 1).1 = true ∧
      (LMApp.mergeDown ⟨⟨[l0, l1], a, cnt⟩, hm⟩ capture compOp 1).2.lm
        = mergedTwoLayer compOp l0 l1 cnt ∧
      (LMApp.mergeDown ⟨⟨[l0, l1], a, cnt⟩, hm⟩ capture compOp 1).2.hm.history
        = hm.history ++ [capture (mergedTwoLayer compOp l0 l1 cnt),
            capture (mergedTwoLayer compOp l0 l1 cnt)] ∧
      (LMApp.mergeDown ⟨⟨[l0, l1], a, cnt⟩, hm⟩ capture compOp 1).2.hm.currentIndex
        = hm.currentIndex + 2 := by
  rw [mergeDown_two_layers capture compOp l0 l1 hm cnt a ha0 ha1]
  have h1 := saveState_at_tail hm (capture (mergedTwoLayer compOp l0 l1 cnt))
    (by omega) (by omega)
  rw [h1]
  have h2 := saveState_at_tail
    (⟨hm.history ++ [capture (mergedTwoLayer compOp l0 l1 cnt)], hm.currentIndex + 1⟩ :
      HistoryManager α)
    (capture (mergedTwoLayer compOp l0 l1 cnt)) (by simp; omega) (by simp; omega)
  rw [h2]
  refine ⟨rfl, rfl, by simp, by simp; ring⟩

theorem claim_C4_witness :
    (0 : ℤ) ≤ 1 ∧ (1 : ℤ) < 2 ∧
      ((⟨[], -1⟩ : HistoryManager ℕ).currentIndex
        = ((⟨[], -1⟩ : HistoryManager ℕ).history.length : ℤ) - 1) ∧
      (⟨[], -1⟩ : HistoryManager ℕ).history.length + 2 ≤ HistoryManager.maxHistorySize ∧
      ((sampleApp2.mergeDown captureLen sampleCompOp 1).1 = true ∧
        (sampleApp2.mergeDown captureLen sampleCompOp 1).2.lm
          = mergedTwoLayer sampleCompOp ⟨1, "a", true, 1, "normal", 100, false⟩
              ⟨2, "b", true, 1, "normal", 200, false⟩ 2 ∧
        (sampleApp2.mergeDown captureLen sampleCompOp 1).2.hm.history
          = (⟨[], -1⟩ : HistoryManager ℕ).history
              ++ [captureLen (mergedTwoLayer sampleCompOp
                    ⟨1, "a", true, 1, "normal", 100, false⟩
                    ⟨2, "b", true, 1, "normal", 200, false⟩ 2),
                  captureLen (mergedTwoLayer sampleCompOp
                    ⟨1, "a", true, 1, "normal", 100, false⟩
                    ⟨2, "b", true, 1, "normal", 200, false⟩ 2)] ∧
        (sampleApp2.mergeDown captureLen sampleCompOp 1).2.hm.currentIndex
          = (⟨[], -1⟩ : HistoryManager ℕ).currentIndex + 2) :=
  ⟨by decide, by decide, by decide, by decide,
    claim_C4_amended_mergeDown_two_entries captureLen sampleCompOp
      ⟨1, "a", true, 1, "normal", 100, false⟩ ⟨2, "b", true, 1, "normal", 200, false⟩
      ⟨[], -1⟩ 2 1 (by decide) (by decide) (by decide) (by decide)⟩

theorem sum_Icc_shift (r : ℕ) (x : ℤ) (f : ℤ → ℕ) :
    ∑ n ∈ Finset.Icc (x - (r : ℤ)) (x + (r : ℤ)), f n
      = ∑ d ∈ Finset.Icc (-(r : ℤ)) (r : ℤ), f (x + d) := by
  have hmap : Finset.Icc (x - (r : ℤ)) (x + (r : ℤ))
      = (Finset.Icc (-(r : ℤ)) (r : ℤ)).map (addLeftEmbedding x) := by
      rw [Finset.map_add_left_Icc, sub_eq_add_neg]
  rw [hmap, Finset.sum_map]
  rfl

theorem blurSum_eq_window (img : ImageData) (radius x y c : ℕ) :
    blurSum img radius x y c
      = ∑ q ∈ blurWindow img radius x y, chanAt img q.1 q.2 c := by
  unfold blurWindow blurSum
  rw [Finset.sum_filter, Finset.sum_product]
  simp only [sum_Icc_shift]
  conv_rhs => rw [Finset.sum_comm]

theorem blurCount_eq_card (img : ImageData) (radius x y : ℕ) :
    blurCount img radius x y = (blurWindow img radius x y).card := by
  unfold blurWindow blurCount
  rw [Finset.card_eq_sum_ones, Finset.sum_filter, Finset.sum_product]
  simp only [sum_Icc_shift]
  conv_rhs => rw [Finset.sum_comm]

theorem applyBlur_getD (img : ImageData) (r i : ℕ)
    (hi : i < img.width * img.height * 4) :
    (applyBlur img r).data.getD i 0
      = blurPixelChan img r ((i / 4) % img.width) ((i / 4) / img.width) (i % 4) := by
  unfold applyBlur
  simp [List.getD_eq_getElem?_getD, List.getElem?_range, hi]

theorem pix_index_recover (w x y c : ℕ) (hx : x < w) (hc : c < 4) :
    (((y * w + x) * 4 + c) / 4) % w = x ∧ (((y * w + x) * 4 + c) / 4) / w = y ∧
      ((y * w + x) * 4 + c) % 4 = c := by
  have h4 : ((y * w + x) * 4 + c) / 4 = y * w + x := by omega
  have hm4 : ((y * w + x) * 4 + c) % 4 = c := by omega
  refine ⟨?_, ?_, hm4⟩
  · rw [h4, Nat.add_comm, Nat.add_mul_mod_self_right, Nat.mod_eq_of_lt hx]
  · rw [h4, Nat.add_comm, Nat.add_mul_div_right _ _ (by omega : 0 < w),
      Nat.div_eq_of_lt hx]
    omega

theorem blurSum_zero_radius (img : ImageData) (x y c : ℕ)
    (hx : x < img.width) (hy : y < img.height) :
    blurSum img 0 x y c = chanAt img x y c := by
  unfold blurSum
  have hset : Finset.Icc (-((0 : ℕ) : ℤ)) ((0 : ℕ) : ℤ) = {0} := by
    norm_num
  rw [hset, Finset.sum_singleton, Finset.sum_singleton, if_pos]
  · norm_num
  · unfold inBounds
    omega

theorem blurCount_zero_radius (img : ImageData) (x y : ℕ)
    (hx : x < img.width) (hy : y < img.height) :
    blurCount img 0 x y = 1 := by
  unfold blurCount
  have hset : Finset.Icc (-((0 : ℕ) : ℤ)) ((0 : ℕ) : ℤ) = {0} := by
    norm_num
  rw [hset, Finset.sum_singleton, Finset.sum_singleton, if_pos]
  unfold inBounds
  omega

theorem blurPixelChan_zero_radius (img : ImageData) (i : ℕ)
    (hw : 0 < img.width)
    (hi : i < img.width * img.height * 4)
    (hlen : img.data.length = img.width * img.height * 4)
    (hbytes : ∀ v ∈ img.data, v ≤ 255) :
    blurPixelChan img 0 ((i / 4) % img.width) ((i / 4) / img.width) (i % 4)
      = img.data.getD i 0 := by
  have hx : (i / 4) % img.width < img.width := Nat.mod_lt _ hw
  have hdiv : i / 4 < img.width * img.height := by omega
  have hy : (i / 4) / img.width < img.height := by
    rw [Nat.div_lt_iff_lt_mul hw]
    have hcomm : img.width * img.height = img.height * img.width := Nat.mul_comm _ _
    omega
  unfold blurPixelChan
  rw [blurSum_zero_radius img _ _ _ hx hy, blurCount_zero_radius img _ _ hx hy]
  have hidx : ((((i / 4) / img.width : ℕ) : ℤ).toNat * img.width
      + (((i / 4) % img.width : ℕ) : ℤ).toNat) * 4 + i % 4 = i := by
    simp only [Int.toNat_natCast]
    have h1 := Nat.div_add_mod (i / 4) img.width
    have h2 := Nat.div_add_mod i 4
    have hcomm : img.width * ((i / 4) / img.width) = ((i / 4) / img.width) * img.width :=
      Nat.mul_comm _ _
    omega
  unfold chanAt
  rw [hidx]
  have hin : i < img.data.length := by omega
  have hmem : img.data.getD i 0 ∈ img.data := by
    rw [List.getD_eq_getElem?_getD, List.getElem?_eq_getElem hin]
    exact List.getElem_mem _
  rw [Nat.cast_one, div_one]
  exact u8write_natCast _ (hbytes _ hmem)

/-- Claim C7: for every surface and radius, box blur sets each channel of
each pixel to the average of that channel over the square window
[-radius, radius] x [-radius, radius] intersected with the surface
bounds, the divisor being the number of in-bounds samples actually
summed; in particular blur with radius 0 is the identity transform. -/
theorem claim_C7_boxBlur_window_average (img : ImageData) (radius x y c : ℕ)
    (hx : x < img.width) (hy : y < img.height) (hc : c < 4)
    (hlen : img.data.length = img.width * img.height * 4)
    (hbytes : ∀ v ∈ img.data, v ≤ 255) :
    ((applyBlur img radius).data.getD ((y * img.width + x) * 4 + c) 0
        = u8write ((∑ q ∈ blurWindow img radius x y, (chanAt img q.1 q.2 c : ℚ))
            / ((blurWindow img radius x y).card : ℚ))) ∧
      applyBlur img 0 = img := by
  have h1 : y * img.width + x + 1 ≤ img.width * img.height := by
    have h2 : (y + 1) * img.width ≤ img.height * img.width :=
      Nat.mul_le_mul_right _ (by omega)
    have h3 : (y + 1) * img.width = y * img.width + img.width := by ring
    have h4 : img.height * img.width = img.width * img.height := Nat.mul_comm _ _
    omega
  constructor
  · have hi : (y * img.width + x) * 4 + c < img.width * img.height * 4 := by omega
    rw [applyBlur_getD img radius _ hi]
    obtain ⟨e1, e2, e3⟩ := pix_index_recover img.width x y c hx hc
    rw [e1, e2, e3]
    unfold blurPixelChan
    rw [blurSum_eq_window, blurCount_eq_card]
    push_cast
    rfl
  · have hw : 0 < img.width := by omega
    have hh : 0 < img.height := by omega
    obtain ⟨w, h, data⟩ := img
    simp only at hx hy hlen hbytes hw hh
    unfold applyBlur
    simp only [ImageData.mk.injEq, true_and]
    apply List.ext_getElem
    · simp [hlen]
    · intro i hi1 hi2
      have hi3 : i < w * h * 4 := by simpa using hi1
      simp only [List.getElem_map, List.getElem_range]
      have hz := blurPixelChan_zero_radius ⟨w, h, data⟩ i hw hi3 hlen hbytes
      simp only at hz
      rw [hz, List.getD_eq_getElem?_getD, List.getElem?_eq_getElem hi2]
      rfl

theorem claim_C7_witness :
    (0 < sampleImg.width ∧ 0 < sampleImg.height ∧ 0 < 4 ∧
        sampleImg.data.length = sampleImg.width * sampleImg.height * 4 ∧
        (∀ v ∈ sampleImg.data, v ≤ 255)) ∧
      (((applyBlur sampleImg 1).data.getD ((0 * sampleImg.width + 0) * 4 + 0) 0
          = u8write ((∑ q ∈ blurWindow sampleImg 1 0 0, (chanAt sampleImg q.1 q.2 0 : ℚ))
              / ((blurWindow sampleImg 1 0 0).card : ℚ))) ∧
        applyBlur sampleImg 0 = sampleImg) :=
  ⟨⟨by decide, by decide, by decide, by decide, by decide⟩,
    claim_C7_boxBlur_window_average sampleImg 1 0 0 0 (by decide) (by decide) (by decide)
      (by decide) (by decide)⟩
